import Mathlib

/-!
Verification development for the `soundcn.mp3` extraction scripts.

The repository contains two script variants that extract base64-encoded audio
payloads from TypeScript source files and write them out as `.mp3` files:

* `extract-sounds.ts` (static pattern-matching variant), and
* an unnamed dynamic-loading variant that temporarily patches
  `use-sound.ts`, imports the decoder, and restores the file afterwards.

Strings are modelled as `List Char`; byte sequences as `List Nat` (each entry
is one byte value).  Filesystem and process effects are modelled by explicit
environments (oracles for the outcome of each I/O operation) and effect
traces.
-/

set_option maxRecDepth 8192

/-! ## JS string `split(',')`

`splitCommaAux s` returns the first comma-separated segment of `s` together
with the list of remaining segments; `splitOnComma` is JavaScript's
`s.split(',')` (which always returns at least one element). -/

def splitCommaAux : List Char → List Char × List (List Char)
  | [] => ([], [])
  | c :: cs =>
    let r := splitCommaAux cs
    if c = ',' then ([], r.1 :: r.2) else (c :: r.1, r.2)

def splitOnComma (s : List Char) : List (List Char) :=
  (splitCommaAux s).1 :: (splitCommaAux s).2

/-! ## Base64 decoding

`b64Val` is the base64 digit table used by Node's decoder: the standard
alphabet `A-Z a-z 0-9 + /` plus the URL-safe aliases `-` and `_`. -/

def b64Val (c : Char) : Option Nat :=
  if 'A' ≤ c ∧ c ≤ 'Z' then some (c.toNat - 65)
  else if 'a' ≤ c ∧ c ≤ 'z' then some (c.toNat - 71)
  else if '0' ≤ c ∧ c ≤ '9' then some (c.toNat - 48 + 52)
  else if c = '+' ∨ c = '-' then some 62
  else if c = '/' ∨ c = '_' then some 63
  else none

/-- Turn a list of 6-bit values into bytes: every complete group of four
sextets yields three bytes, a trailing pair yields one byte, a trailing
triple yields two bytes, and a single trailing sextet yields nothing. -/
def decodeSextets : List Nat → List Nat
  | a :: b :: c :: d :: rest =>
    (a * 4 + b / 16) :: ((b % 16) * 16 + c / 4) :: ((c % 4) * 64 + d) ::
      decodeSextets rest
  | [a, b] => [a * 4 + b / 16]
  | [_a] => []
  | [a, b, c] => [a * 4 + b / 16, (b % 16) * 16 + c / 4]
  | [] => []

/-- Node's `Buffer.from(s, 'base64')`: decoding scans the string left to
right, silently skips characters outside the base64 alphabet, and stops at
the first `=`; it never throws.  (Node `src/base64-inl.h`: an illegal
character other than `=` is skipped, `=` terminates decoding.) -/
def bufferFromBase64 (s : List Char) : List Nat :=
  decodeSextets ((s.takeWhile (fun c => !(c == '='))).filterMap b64Val)

/-- Error message thrown by `decodeAudioDataUri` in `extract-sounds.ts`. -/
def uriErrMsg : String := "Invalid DataURI format: missing base64 data"

/-- JavaScript array indexing `arr[i]`: `undefined` (here `none`) when the
index is out of range. -/
def listIdx {α : Type} : List α → Nat → Option α
  | [], _ => none
  | x :: _, 0 => some x
  | _ :: xs, n + 1 => listIdx xs n

/-- `decodeAudioDataUri` from `extract-sounds.ts` lines 47-62:
`base64 = dataUri.split(',')[1]`; `if (!base64) throw ...` (both a missing
element and the empty string are falsy); `Buffer.from(base64, 'base64')`. -/
def decodeAudioDataUri (dataUri : List Char) : Except String (List Nat) :=
  match listIdx (splitOnComma dataUri) 1 with
  | none => Except.error uriErrMsg
  | some [] => Except.error uriErrMsg
  | some base64 => Except.ok (bufferFromBase64 base64)

/-! ## Spec-side standard base64 decoder

The following definitions follow the specification's words ("decodes the
substring after the comma as standard base64"), for comparison with the
code-side `bufferFromBase64`: the standard alphabet only, strict `=`
padding, groups of four, rejection of anything else. -/

def isStdB64Char (c : Char) : Bool :=
  decide (('A' ≤ c ∧ c ≤ 'Z') ∨ ('a' ≤ c ∧ c ≤ 'z') ∨ ('0' ≤ c ∧ c ≤ '9') ∨
    c = '+' ∨ c = '/')

def stdB64Val (c : Char) : Option Nat :=
  if isStdB64Char c then b64Val c else none

/-- Strict RFC 4648 standard base64 decoder: `some bytes` exactly on valid
padded base64 input (the empty string is valid and denotes no bytes). -/
def specDecodeB64 : List Char → Option (List Nat)
  | [] => some []
  | a :: b :: c :: d :: rest =>
    (stdB64Val a).bind fun va =>
    (stdB64Val b).bind fun vb =>
    if c = '=' then
      if d = '=' ∧ rest = [] then some [va * 4 + vb / 16] else none
    else
      (stdB64Val c).bind fun vc =>
      if d = '=' then
        if rest = [] then some [va * 4 + vb / 16, (vb % 16) * 16 + vc / 4]
        else none
      else
        (stdB64Val d).bind fun vd =>
        (specDecodeB64 rest).bind fun tailBytes =>
        some ((va * 4 + vb / 16) :: ((vb % 16) * 16 + vc / 4) ::
          ((vc % 4) * 64 + vd) :: tailBytes)
  | _ => none

/-! ## Asset extractor (`extract-sounds.ts` lines 78-101)

`extractSoundAssetFromTsFile` matches the regexes
`/name:\s*["']([^"']+)["']/` and `/dataUri:\s*["']([^"']+)["']/` against the
file content and returns the first captures, or `none` when either is
missing or empty (the JavaScript falsy check `if (!name || !dataUri)`). -/

/-- JavaScript regex `\s` (restricted to the ASCII whitespace characters,
which are the only ones exercised here). -/
def isWsChar (c : Char) : Bool :=
  c == ' ' || c == '\t' || c == '\n' || c == '\r' ||
    c == Char.ofNat 11 || c == Char.ofNat 12

/-- The character class `["']`: a double (code 34) or single (code 39)
quote. -/
def isQuoteChar (c : Char) : Bool :=
  c == Char.ofNat 34 || c == Char.ofNat 39

/-- Strip an exact literal from the front of a string, returning the
remainder. -/
def dropLit : List Char → List Char → Option (List Char)
  | [], s => some s
  | _ :: _, [] => none
  | k :: ks, c :: cs => if c = k then dropLit ks cs else none

/-- Attempt the pattern `key\s*["']([^"']+)["']` anchored at the start of
`s`; returns the capture group.  Greedy `\s*` and `[^"']+` need no
backtracking here because the character after a maximal run can never
restart the run. -/
def matchKeyAt (key s : List Char) : Option (List Char) :=
  match dropLit key s with
  | none => none
  | some r1 =>
    match r1.dropWhile isWsChar with
    | [] => none
    | q :: r3 =>
      if isQuoteChar q then
        match r3.takeWhile (fun c => !(isQuoteChar c)),
              r3.dropWhile (fun c => !(isQuoteChar c)) with
        | [], _ => none
        | _, [] => none
        | cap, _ :: _ => some cap
      else none

/-- JavaScript `content.match(regex)` for a non-global regex: the leftmost
position at which the pattern matches wins. -/
def firstQuotedField (key : List Char) : List Char → Option (List Char)
  | [] => none
  | c :: rest =>
    match matchKeyAt key (c :: rest) with
    | some cap => some cap
    | none => firstQuotedField key rest

structure SoundAsset where
  name : List Char
  dataUri : List Char
  deriving DecidableEq

/-- `extractSoundAssetFromTsFile`: extract the `name` and `dataUri` fields;
`none` when either is absent (or empty, via the falsy check). -/
def extractSoundAssetFromTsFile (content : List Char) : Option SoundAsset :=
  match firstQuotedField "name:".data content,
        firstQuotedField "dataUri:".data content with
  | some n, some d => if n.isEmpty || d.isEmpty then none else some ⟨n, d⟩
  | _, _ => none

/-! ## Static pipeline (`extract-sounds.ts` `main`, lines 146-228)

I/O outcomes that the script merely reacts to (does the read succeed, does
the write succeed, do the directories exist) are oracle fields of the
environment; everything else follows the code. -/

inductive Effect where
  | mkdirOutputDir : Effect
  | exitProcess : Nat → Effect
  | writeFile : List Char → List Nat → Effect
  deriving DecidableEq

def isWriteEffect : Effect → Bool
  | Effect.writeFile _ _ => true
  | _ => false

/-- One discovered candidate file: whether `fs.readFileSync` succeeds, the
content read, and whether `fs.writeFileSync` of the output would succeed. -/
structure FileEntry where
  readOk : Bool
  content : List Char
  writeOk : Bool
  deriving DecidableEq

/-- The per-file body of the `tsFiles.forEach` loop (lines 181-212):
read+extract (`null` on failure), decode (`throw` caught by the handler),
then `saveAsMp3`.  `some (outputName, bytes)` on success, `none` on any
failure. -/
def processFile (f : FileEntry) : Option (List Char × List Nat) :=
  if f.readOk = false then none
  else
    match extractSoundAssetFromTsFile f.content with
    | none => none
    | some a =>
      match decodeAudioDataUri a.dataUri with
      | Except.error _ => none
      | Except.ok bytes =>
        if f.writeOk then some (a.name ++ ".mp3".data, bytes) else none

structure LoopResult where
  effects : List Effect
  successCount : Nat
  failureCount : Nat
  deriving DecidableEq

/-- The `forEach` loop: each file contributes exactly one counter increment
and (on success) one write effect; no outcome stops the iteration. -/
def runLoop : List FileEntry → LoopResult
  | [] => ⟨[], 0, 0⟩
  | f :: fs =>
    let r := runLoop fs
    match processFile f with
    | some w =>
      ⟨Effect.writeFile w.1 w.2 :: r.effects, r.successCount + 1, r.failureCount⟩
    | none => ⟨r.effects, r.successCount, r.failureCount + 1⟩

structure Env where
  outDirExists : Bool
  rootExists : Bool
  files : List FileEntry
  deriving DecidableEq

structure RunResult where
  trace : List Effect
  exitCode : Nat
  successCount : Nat
  failureCount : Nat
  deriving DecidableEq

/-- `main` of `extract-sounds.ts`: create the output directory if missing
(lines 152-155), then abort with `process.exit(1)` if the sounds directory
is missing (lines 158-163), otherwise run the per-file loop and exit
normally. -/
def runMain (e : Env) : RunResult :=
  let pre := if e.outDirExists then ([] : List Effect) else [Effect.mkdirOutputDir]
  if e.rootExists = false then
    ⟨pre ++ [Effect.exitProcess 1], 1, 0, 0⟩
  else
    let r := runLoop e.files
    ⟨pre ++ r.effects, 0, r.successCount, r.failureCount⟩

/-! ## Dynamic-loading variant (the unnamed script)

`patchUseSoundFile` tests `/^(async\s+function\s+decodeAudioData)/m` against
the current content of `use-sound.ts` and inserts `export ` in front of the
first match; `restoreUseSoundFile` writes the saved original back.  `main`
patches, works inside `try ... finally restoreUseSoundFile()`, and the
top-level `.catch` restores once more and exits non-zero. -/

def dropWs1 : List Char → Option (List Char)
  | [] => none
  | c :: rest => if isWsChar c then some (rest.dropWhile isWsChar) else none

/-- The regex `async\s+function\s+decodeAudioData` anchored at the current
position. -/
def patchPatternAt (s : List Char) : Bool :=
  ((dropLit "async".data s).bind fun r1 =>
   (dropWs1 r1).bind fun r2 =>
   (dropLit "function".data r2).bind fun r3 =>
   (dropWs1 r3).bind fun r4 =>
   dropLit "decodeAudioData".data r4).isSome

/-- Line terminators after which a multiline `^` anchor matches. -/
def isLineTerm (c : Char) : Bool := c == '\n' || c == '\r'

/-- Scan for the multiline-anchored pattern (`RegExp.prototype.test`). -/
def patternSearch : List Char → Bool → Bool
  | [], atStart => atStart && patchPatternAt []
  | c :: rest, atStart =>
    (atStart && patchPatternAt (c :: rest)) || patternSearch rest (isLineTerm c)

def containsPatchPattern (s : List Char) : Bool := patternSearch s true

/-- `content.replace(pattern, 'export $1')` for the non-global multiline
pattern: insert `export ` in front of the first anchored match. -/
def applyPatchAux : List Char → Bool → List Char
  | [], _ => []
  | c :: rest, atStart =>
    if atStart && patchPatternAt (c :: rest) then "export ".data ++ c :: rest
    else c :: applyPatchAux rest (isLineTerm c)

def applyPatch (s : List Char) : List Char := applyPatchAux s true

/-- Environment of the dynamic-loading `main`: the original content of
`use-sound.ts` plus oracles for each I/O step and for whether the
(abstracted) processing body raises. -/
structure Env2 where
  useSoundContent : List Char
  readOk : Bool
  patchWriteOk : Bool
  restoreWriteOk : Bool
  importOk : Bool
  bodyRaises : Bool
  outDirExists : Bool
  rootExists : Bool
  hasFiles : Bool
  deriving DecidableEq

structure Run2Result where
  finalUseSound : List Char
  exitCode : Nat
  createdOutDir : Bool
  deriving DecidableEq

/-- The dynamic-loading `main` plus its top-level `.catch` handler, path by
path.  Writes are atomic: a failed write leaves the file unchanged.
* missing root: `process.exit(1)` before any patch (lines 129-134);
* no candidate files: early return, exit 0 (lines 141-144);
* `patchUseSoundFile` read failure: nothing saved, file untouched, the
  rejection reaches `.catch`, restore is a no-op, exit 1;
* pattern not found: throw after saving the original but before writing, so
  the file is untouched (restore rewrites the identical original), exit 1;
* patch write failure: same, file unchanged, exit 1;
* import failure or a raising body: the `finally` (and then the `.catch`)
  restore the original, exit 1;
* success: the `finally` restores the original, exit 0.
When the restore write itself fails the file stays patched (and on the
success path the failure escapes the `finally`, so the process exits
non-zero). -/
def runMain2 (e : Env2) : Run2Result :=
  let created := !e.outDirExists
  if e.rootExists = false then ⟨e.useSoundContent, 1, created⟩
  else if e.hasFiles = false then ⟨e.useSoundContent, 0, created⟩
  else if e.readOk = false then ⟨e.useSoundContent, 1, created⟩
  else if containsPatchPattern e.useSoundContent = false then
    ⟨e.useSoundContent, 1, created⟩
  else if e.patchWriteOk = false then ⟨e.useSoundContent, 1, created⟩
  else if e.importOk = false || e.bodyRaises then
    ⟨if e.restoreWriteOk then e.useSoundContent else applyPatch e.useSoundContent,
     1, created⟩
  else
    ⟨if e.restoreWriteOk then e.useSoundContent else applyPatch e.useSoundContent,
     if e.restoreWriteOk then 0 else 1, created⟩

/-! ## File walkers

A directory tree is a list of named nodes; `findAllTsFiles` in each variant
walks it depth-first in listing order, recursing into directories and
keeping files by suffix.  The static variant (`extract-sounds.ts` line 118)
keeps `.ts` and `.tsx`; the dynamic variant (line 77 of the unnamed script)
keeps `.ts` but excludes `.d.ts`. -/

inductive FsNode where
  | file : List Char → FsNode
  | dir : List Char → List FsNode → FsNode

/-- `path.join(dir, file)` (POSIX separator). -/
def pathJoin (d n : List Char) : List Char := d ++ '/' :: n

namespace ExtractSounds

/-- The walker of `extract-sounds.ts` (lines 109-124). -/
def findAllTsFiles : List Char → List FsNode → List (List Char)
  | _, [] => []
  | d, FsNode.file n :: rest =>
    (if ".ts".data.isSuffixOf n || ".tsx".data.isSuffixOf n then
      [pathJoin d n] else []) ++ findAllTsFiles d rest
  | d, FsNode.dir n entries :: rest =>
    findAllTsFiles (pathJoin d n) entries ++ findAllTsFiles d rest

end ExtractSounds

namespace DynExtract

/-- The walker of the dynamic-loading script (lines 68-83). -/
def findAllTsFiles : List Char → List FsNode → List (List Char)
  | _, [] => []
  | d, FsNode.file n :: rest =>
    (if ".ts".data.isSuffixOf n && !(".d.ts".data.isSuffixOf n) then
      [pathJoin d n] else []) ++ findAllTsFiles d rest
  | d, FsNode.dir n entries :: rest =>
    findAllTsFiles (pathJoin d n) entries ++ findAllTsFiles d rest

end DynExtract

/-- No file in the tree has a name ending in `.tsx` or `.d.ts` — the
domain on which the two suffix filters agree. -/
def noVariantGap : List FsNode → Bool
  | [] => true
  | FsNode.file n :: rest =>
    !(".tsx".data.isSuffixOf n) && !(".d.ts".data.isSuffixOf n) && noVariantGap rest
  | FsNode.dir _ es :: rest => noVariantGap es && noVariantGap rest

/-! ## Lemmas about comma splitting -/

theorem splitCommaAux_no_comma (s : List Char) (h : ',' ∉ s) :
    splitCommaAux s = (s, []) := by
  induction s with
  | nil => rfl
  | cons c cs ih =>
    simp only [List.mem_cons, not_or] at h
    have hc : ¬ (c = ',') := fun hcc => h.1 hcc.symm
    simp [splitCommaAux, hc, ih h.2]

theorem splitCommaAux_append (pre post : List Char) (h : ',' ∉ pre) :
    splitCommaAux (pre ++ ',' :: post) =
      (pre, (splitCommaAux post).1 :: (splitCommaAux post).2) := by
  induction pre with
  | nil => simp [splitCommaAux]
  | cons c cs ih =>
    simp only [List.mem_cons, not_or] at h
    have hc : ¬ (c = ',') := fun hcc => h.1 hcc.symm
    simp [splitCommaAux, hc, ih h.2]

theorem splitCommaAux_fst (s : List Char) :
    (splitCommaAux s).1 = s.takeWhile (fun c => !(c == ',')) := by
  induction s with
  | nil => rfl
  | cons c cs ih =>
    by_cases hc : c = ','
    · subst hc; simp [splitCommaAux]
    · simp [splitCommaAux, hc, List.takeWhile_cons, ih]

theorem splitCommaAux_snd_eq_nil (s : List Char) :
    (splitCommaAux s).2 = [] ↔ ',' ∉ s := by
  induction s with
  | nil => simp [splitCommaAux]
  | cons c cs ih =>
    by_cases hc : c = ','
    · subst hc; simp [splitCommaAux]
    · have hc' : ¬ (',' = c) := fun hcc => hc hcc.symm
      simp [splitCommaAux, hc, hc', ih]

theorem first_comma_split (s : List Char) (h : ',' ∈ s) :
    ∃ pre post, s = pre ++ ',' :: post ∧ ',' ∉ pre := by
  induction s with
  | nil => cases h
  | cons c cs ih =>
    by_cases hc : c = ','
    · exact ⟨[], cs, by simp [hc], by simp⟩
    · have hmem : ',' ∈ cs := by
        rcases List.mem_cons.mp h with h1 | h1
        · exact absurd h1.symm hc
        · exact h1
      obtain ⟨pre, post, hs, hpre⟩ := ih hmem
      refine ⟨c :: pre, post, by simp [hs], ?_⟩
      simp only [List.mem_cons, not_or]
      exact ⟨fun hcc => hc hcc.symm, hpre⟩

/-! ## Lemmas about the strict base64 decoder -/

theorem stdB64Val_facts (c : Char) (v : Nat) (h : stdB64Val c = some v) :
    b64Val c = some v ∧ (c == '=') = false ∧ c ≠ ',' := by
  unfold stdB64Val at h
  split at h
  · next hc =>
    refine ⟨h, ?_, ?_⟩
    · cases hch : (c == '=') with
      | false => rfl
      | true =>
        have hcc := eq_of_beq hch
        subst hcc
        exact absurd hc (by decide)
    · intro hcc
      subst hcc
      exact absurd hc (by decide)
  · exact absurd h (by simp)

theorem specDecodeB64_props : ∀ (s : List Char) (bs : List Nat),
    specDecodeB64 s = some bs → ',' ∉ s ∧ bufferFromBase64 s = bs
  | [], bs, h => by
    simp only [specDecodeB64, Option.some.injEq] at h
    subst h
    exact ⟨by simp, rfl⟩
  | [_a], _bs, h => Option.noConfusion h
  | [_a, _b], _bs, h => Option.noConfusion h
  | [_a, _b, _c], _bs, h => Option.noConfusion h
  | a :: b :: c :: d :: rest, bs, h => by
    rw [specDecodeB64] at h
    cases ha : stdB64Val a with
    | none => rw [ha, Option.none_bind] at h; exact Option.noConfusion h
    | some va =>
    rw [ha, Option.some_bind] at h
    cases hb : stdB64Val b with
    | none => rw [hb, Option.none_bind] at h; exact Option.noConfusion h
    | some vb =>
    rw [hb, Option.some_bind] at h
    obtain ⟨hba, ha', hac⟩ := stdB64Val_facts a va ha
    obtain ⟨hbb, hb', hbc⟩ := stdB64Val_facts b vb hb
    by_cases hceq : c = '='
    · rw [if_pos hceq] at h
      by_cases hde : d = '=' ∧ rest = []
      · rw [if_pos hde] at h
        obtain ⟨hd, hrest⟩ := hde
        subst hceq; subst hd; subst hrest
        simp only [Option.some.injEq] at h
        subst h
        constructor
        · simp only [List.mem_cons, not_or]
          exact ⟨fun hx => hac hx.symm, fun hx => hbc hx.symm, by decide, by decide,
            by simp⟩
        · unfold bufferFromBase64
          simp [List.takeWhile_cons, ha', hb', List.filterMap_cons, hba, hbb,
            decodeSextets]
      · rw [if_neg hde] at h; exact Option.noConfusion h
    · rw [if_neg hceq] at h
      cases hc : stdB64Val c with
      | none => rw [hc, Option.none_bind] at h; exact Option.noConfusion h
      | some vc =>
      rw [hc, Option.some_bind] at h
      obtain ⟨hbc', hc', hcc⟩ := stdB64Val_facts c vc hc
      by_cases hdeq : d = '='
      · rw [if_pos hdeq] at h
        by_cases hrest : rest = []
        · rw [if_pos hrest] at h
          subst hdeq; subst hrest
          simp only [Option.some.injEq] at h
          subst h
          constructor
          · simp only [List.mem_cons, not_or]
            exact ⟨fun hx => hac hx.symm, fun hx => hbc hx.symm,
              fun hx => hcc hx.symm, by decide, by simp⟩
          · unfold bufferFromBase64
            simp [List.takeWhile_cons, ha', hb', hc', List.filterMap_cons, hba, hbb,
              hbc', decodeSextets]
        · rw [if_neg hrest] at h; exact Option.noConfusion h
      · rw [if_neg hdeq] at h
        cases hd : stdB64Val d with
        | none => rw [hd, Option.none_bind] at h; exact Option.noConfusion h
        | some vd =>
        rw [hd, Option.some_bind] at h
        cases htail : specDecodeB64 rest with
        | none => rw [htail, Option.none_bind] at h; exact Option.noConfusion h
        | some tailBytes =>
        rw [htail, Option.some_bind] at h
        simp only [Option.some.injEq] at h
        subst h
        obtain ⟨hbd, hd', hdc⟩ := stdB64Val_facts d vd hd
        obtain ⟨hmem, hbuf⟩ := specDecodeB64_props rest tailBytes htail
        constructor
        · simp only [List.mem_cons, not_or]
          exact ⟨fun hx => hac hx.symm, fun hx => hbc hx.symm,
            fun hx => hcc hx.symm, fun hx => hdc hx.symm, hmem⟩
        · unfold bufferFromBase64 at hbuf ⊢
          simp [List.takeWhile_cons, ha', hb', hc', hd', List.filterMap_cons,
            hba, hbb, hbc', hbd, decodeSextets, hbuf]

/-! ## Claim C1 -/

/-- C1 (as stated) is refuted by `"data:,"`: the payload after the first
comma is the empty string, which is valid standard base64 denoting the empty
byte sequence, yet `decodeAudioDataUri` raises the malformed-URI error
instead of returning the empty byte sequence (the empty string is falsy in
JavaScript). -/
theorem c1_counterexample :
    specDecodeB64 [] = some [] ∧
      decodeAudioDataUri "data:,".data = Except.error uriErrMsg :=
  ⟨rfl, rfl⟩

/-- C1 (amended): for every input string that contains a comma and whose
payload after the first comma is valid, non-empty standard base64,
`decodeAudioDataUri` returns exactly the byte sequence that the entire
substring after the first comma represents, with no re-encoding and no
validation of the decoded bytes. -/
theorem c1_decode_valid_payload (s pre post : List Char) (bs : List Nat)
    (hs : s = pre ++ ',' :: post) (hpre : ',' ∉ pre)
    (hdec : specDecodeB64 post = some bs) (hne : post ≠ []) :
    decodeAudioDataUri s = Except.ok bs := by
  obtain ⟨hmem, hbuf⟩ := specDecodeB64_props post bs hdec
  subst hs
  unfold decodeAudioDataUri splitOnComma
  rw [splitCommaAux_append pre post hpre, splitCommaAux_no_comma post hmem]
  cases post with
  | nil => exact absurd rfl hne
  | cons p ps =>
    show Except.ok (bufferFromBase64 (p :: ps)) = Except.ok bs
    rw [hbuf]

/-- C1 witness: the amended theorem applied to the data URI
`data:audio/mpeg;base64,SGVsbG8=`, which decodes to the bytes of `Hello`. -/
theorem c1_decode_valid_payload_witness :
    decodeAudioDataUri "data:audio/mpeg;base64,SGVsbG8=".data =
      Except.ok [72, 101, 108, 108, 111] :=
  c1_decode_valid_payload "data:audio/mpeg;base64,SGVsbG8=".data
    "data:audio/mpeg;base64".data "SGVsbG8=".data [72, 101, 108, 108, 111]
    (by decide) (by decide) (by decide) (by decide)

/-! ## Claim C3 -/

/-- C3 (as stated) is refuted: the string `","` contains a comma, yet
`decodeAudioDataUri` fails with the malformed-URI error, so the absence of a
comma is not the condition under which this failure occurs. -/
theorem c3_counterexample :
    ',' ∈ ",".data ∧ decodeAudioDataUri ",".data = Except.error uriErrMsg :=
  ⟨by decide, rfl⟩

/-- C3 (amended): `decodeAudioDataUri` fails with the `MalformedDataUri`
error for every input string that contains no comma; however the absence of
a comma is only sufficient, not necessary: the failure occurs exactly when
the input has no comma or the segment between the first and the second comma
is empty. -/
theorem c3_error_characterisation (s : List Char) :
    decodeAudioDataUri s = Except.error uriErrMsg ↔
      (',' ∉ s ∨ ∃ pre post, s = pre ++ ',' :: post ∧ ',' ∉ pre ∧
        post.takeWhile (fun c => !(c == ',')) = []) := by
  constructor
  · intro h
    by_cases hmem : ',' ∈ s
    · obtain ⟨pre, post, hs, hpre⟩ := first_comma_split s hmem
      refine Or.inr ⟨pre, post, hs, hpre, ?_⟩
      subst hs
      unfold decodeAudioDataUri splitOnComma at h
      rw [splitCommaAux_append pre post hpre] at h
      rw [← splitCommaAux_fst]
      cases hfst : (splitCommaAux post).1 with
      | nil => rfl
      | cons p ps =>
        rw [hfst] at h
        have h' : (Except.ok (bufferFromBase64 (p :: ps)) : Except String (List Nat)) =
            Except.error uriErrMsg := h
        exact Except.noConfusion h'
    · exact Or.inl hmem
  · intro h
    rcases h with h | ⟨pre, post, hs, hpre, hpost⟩
    · unfold decodeAudioDataUri splitOnComma
      rw [splitCommaAux_no_comma s h]
      rfl
    · subst hs
      unfold decodeAudioDataUri splitOnComma
      rw [splitCommaAux_append pre post hpre]
      rw [← splitCommaAux_fst] at hpost
      rw [hpost]
      rfl

/-! ## Claim C4 -/

/-- C4: the code, evaluated at the failing input
`data:audio/mpeg;base64,!!!!` (whose payload consists of characters that are
invalid in standard base64), does not fail with a `DecodeError`: it returns
the empty byte sequence, because Node's `Buffer.from(s, 'base64')` silently
skips invalid characters and never throws.  This contradicts the function's
own documentation, which asserts that it is equivalent to the
`atob`-based decoding of `use-sound.ts` (`atob` throws on such input). -/
theorem c4_invalid_base64_does_not_fail :
    decodeAudioDataUri "data:audio/mpeg;base64,!!!!".data = Except.ok [] :=
  rfl

/-! ## Claim C10 -/

/-- C10: `decodeAudioDataUri` also throws the `Invalid DataURI format` error
for inputs that do contain a comma but whose segment between the first and
second comma is empty (for example a string ending at its first comma), not
only for inputs with no comma at all. -/
theorem c10_empty_segment_error (pre post : List Char) (hpre : ',' ∉ pre)
    (hpost : post.takeWhile (fun c => !(c == ',')) = []) :
    ',' ∈ (pre ++ ',' :: post) ∧
      decodeAudioDataUri (pre ++ ',' :: post) = Except.error uriErrMsg := by
  refine ⟨by simp, ?_⟩
  unfold decodeAudioDataUri splitOnComma
  rw [splitCommaAux_append pre post hpre]
  rw [← splitCommaAux_fst] at hpost
  rw [hpost]
  rfl

/-- C10 witness: the input `abc,` (a string ending at its first comma)
contains a comma and still produces the malformed-URI error. -/
theorem c10_empty_segment_error_witness :
    ',' ∈ ("abc".data ++ ',' :: ([] : List Char)) ∧
      decodeAudioDataUri ("abc".data ++ ',' :: ([] : List Char)) =
        Except.error uriErrMsg :=
  c10_empty_segment_error "abc".data [] (by decide) (by decide)

/-! ## Claim C5 -/

/-- C5 (as stated) is refuted: on a file whose `dataUri` field holds a
comma-free string, the extractor happily returns the record — the regex
`dataUri:\s*["']([^"']+)["']` never checks for a comma, so the data-model
invariant "dataUri contains at least one comma separator" is not
established by the extractor. -/
theorem c5_counterexample :
    extractSoundAssetFromTsFile "name: \"tick\" dataUri: \"nocomma\"".data =
      some ⟨"tick".data, "nocomma".data⟩ ∧ ',' ∉ "nocomma".data := by
  decide

/-- C5 (amended): every `SoundAsset` record returned by the asset extractor
has a non-empty `name` and a non-empty `dataUri` (enforced by the falsy
check and the one-or-more quantifier of the capture), but the `dataUri` is
not guaranteed to contain a comma — a comma-free `dataUri` is only caught
later by the decoder. -/
theorem c5_extract_nonempty_fields (content : List Char) (a : SoundAsset)
    (h : extractSoundAssetFromTsFile content = some a) :
    a.name ≠ [] ∧ a.dataUri ≠ [] := by
  unfold extractSoundAssetFromTsFile at h
  cases hn : firstQuotedField "name:".data content with
  | none =>
    cases hd : firstQuotedField "dataUri:".data content with
    | none => rw [hn, hd] at h; exact Option.noConfusion h
    | some d => rw [hn, hd] at h; exact Option.noConfusion h
  | some n =>
    cases hd : firstQuotedField "dataUri:".data content with
    | none => rw [hn, hd] at h; exact Option.noConfusion h
    | some d =>
      rw [hn, hd] at h
      have h' : (if n.isEmpty || d.isEmpty then (none : Option SoundAsset)
          else some ⟨n, d⟩) = some a := h
      by_cases hem : (n.isEmpty || d.isEmpty) = true
      · rw [if_pos hem] at h'; exact Option.noConfusion h'
      · rw [if_neg hem] at h'
        simp only [Option.some.injEq] at h'
        subst h'
        simp only [Bool.or_eq_true, not_or] at hem
        obtain ⟨hn', hd'⟩ := hem
        show n ≠ [] ∧ d ≠ []
        constructor
        · intro hx; subst hx; exact hn' rfl
        · intro hx; subst hx; exact hd' rfl

/-- C5 witness: the amended theorem applied to a well-formed file content
with fields `beep` and `z`. -/
theorem c5_extract_nonempty_fields_witness :
    (⟨"beep".data, "z".data⟩ : SoundAsset).name ≠ [] ∧
      (⟨"beep".data, "z".data⟩ : SoundAsset).dataUri ≠ [] :=
  c5_extract_nonempty_fields "name: \"beep\" dataUri: \"z\"".data
    ⟨"beep".data, "z".data⟩ (by decide)

/-! ## Claim C2 -/

theorem runLoop_counts (l : List FileEntry) :
    (runLoop l).successCount + (runLoop l).failureCount = l.length := by
  induction l with
  | nil => rfl
  | cons f fs ih =>
    simp only [runLoop]
    cases processFile f <;> simp <;> omega

theorem runLoop_append (xs ys : List FileEntry) :
    runLoop (xs ++ ys) =
      ⟨(runLoop xs).effects ++ (runLoop ys).effects,
       (runLoop xs).successCount + (runLoop ys).successCount,
       (runLoop xs).failureCount + (runLoop ys).failureCount⟩ := by
  induction xs with
  | nil =>
    simp only [List.nil_append, runLoop, Nat.zero_add]
  | cons f fs ih =>
    simp only [List.cons_append, runLoop, List.append_eq, ih]
    cases processFile f <;> simp [LoopResult.mk.injEq] <;> omega

/-- C2: for every run of the pipeline (with an existing root directory),
each discovered candidate file increments exactly one of the two counters —
the final summary satisfies `success + failure = number of discovered
files` — and no file's failure stops the processing of subsequent files:
the loop over `xs ++ ys` is the loop over `xs` followed, unconditionally,
by the loop over `ys`. -/
theorem c2_success_failure_partition (e : Env) (xs ys : List FileEntry)
    (h : e.rootExists = true) :
    (runMain e).successCount + (runMain e).failureCount = e.files.length ∧
    runLoop (xs ++ ys) =
      ⟨(runLoop xs).effects ++ (runLoop ys).effects,
       (runLoop xs).successCount + (runLoop ys).successCount,
       (runLoop xs).failureCount + (runLoop ys).failureCount⟩ := by
  refine ⟨?_, runLoop_append xs ys⟩
  unfold runMain
  rw [h]
  simp [runLoop_counts]

def fGood : FileEntry := ⟨true, "name: \"click\" dataUri: \"d,AAAA\"".data, true⟩

def fBad : FileEntry := ⟨true, "no fields here".data, true⟩

/-- C2 witness: a run over one succeeding and one failing file. -/
theorem c2_success_failure_partition_witness :
    (runMain ⟨true, true, [fGood, fBad]⟩).successCount +
        (runMain ⟨true, true, [fGood, fBad]⟩).failureCount =
      (Env.mk true true [fGood, fBad]).files.length ∧
    runLoop ([fGood] ++ [fBad]) =
      ⟨(runLoop [fGood]).effects ++ (runLoop [fBad]).effects,
       (runLoop [fGood]).successCount + (runLoop [fBad]).successCount,
       (runLoop [fGood]).failureCount + (runLoop [fBad]).failureCount⟩ :=
  c2_success_failure_partition ⟨true, true, [fGood, fBad]⟩ [fGood] [fBad] rfl

/-! ## Claim C6 -/

/-- C6: if the input root directory does not exist, the process exits with
a non-zero exit code and its effect trace contains no file write. -/
theorem c6_missing_root_aborts (e : Env) (h : e.rootExists = false) :
    (runMain e).exitCode ≠ 0 ∧ (runMain e).trace.filter isWriteEffect = [] := by
  unfold runMain
  rw [h]
  cases houd : e.outDirExists <;> simp [isWriteEffect]

/-- C6 witness: a concrete run with a missing root directory. -/
theorem c6_missing_root_aborts_witness :
    (runMain ⟨true, false, []⟩).exitCode ≠ 0 ∧
      (runMain ⟨true, false, []⟩).trace.filter isWriteEffect = [] :=
  c6_missing_root_aborts ⟨true, false, []⟩ rfl

/-! ## Claim C9 -/

/-- C9: when the input root directory does not exist and the output
directory was absent, `main` still creates the output directory before
exiting non-zero, in both variants: in the static variant the trace is
exactly `[mkdir, exit 1]` (creation precedes the abort, and nothing is
written), and in the dynamic variant the output directory is likewise
created while the run exits non-zero. -/
theorem c9_outdir_created_before_abort (e : Env) (e2 : Env2)
    (h1 : e.rootExists = false) (h2 : e.outDirExists = false)
    (h3 : e2.rootExists = false) (h4 : e2.outDirExists = false) :
    (runMain e).trace = [Effect.mkdirOutputDir, Effect.exitProcess 1] ∧
      (runMain e).exitCode ≠ 0 ∧
      (runMain2 e2).createdOutDir = true ∧ (runMain2 e2).exitCode ≠ 0 := by
  unfold runMain runMain2
  rw [h1, h2, h3, h4]
  simp

/-- C9 witness: concrete environments with missing root and absent output
directory, for both variants. -/
theorem c9_outdir_created_before_abort_witness :
    (runMain ⟨false, false, []⟩).trace =
        [Effect.mkdirOutputDir, Effect.exitProcess 1] ∧
      (runMain ⟨false, false, []⟩).exitCode ≠ 0 ∧
      (runMain2 ⟨[], true, true, true, true, false, false, false, true⟩).createdOutDir
          = true ∧
      (runMain2 ⟨[], true, true, true, true, false, false, false, true⟩).exitCode ≠ 0 :=
  c9_outdir_created_before_abort ⟨false, false, []⟩
    ⟨[], true, true, true, true, false, false, false, true⟩ rfl rfl rfl rfl

/-! ## Claim C7 -/

/-- C7: in the dynamic-loading variant, `use-sound.ts` is restored to its
original content before the process exits on every execution path — after
the main work completes successfully and also when any stage raises
(pattern not found, patch write failure, import failure, a raising body) —
provided the restoring write itself succeeds (a failure of the restore
write is an I/O impossibility, not a control-flow path). -/
theorem c7_use_sound_restored (e : Env2) (h : e.restoreWriteOk = true) :
    (runMain2 e).finalUseSound = e.useSoundContent := by
  unfold runMain2
  rw [h]
  split_ifs <;> simp_all

/-- C7 witness: the successful-run path with a patchable file content. -/
theorem c7_use_sound_restored_witness :
    (runMain2 ⟨"async function decodeAudioData".data, true, true, true, true,
        false, true, true, true⟩).finalUseSound =
      "async function decodeAudioData".data :=
  c7_use_sound_restored
    ⟨"async function decodeAudioData".data, true, true, true, true,
      false, true, true, true⟩ rfl

/-! ## Claim C8 -/

/-- C8 (as stated) is refuted: on a directory containing the single file
`a.d.ts`, the static walker returns the file (its name ends in `.ts`) but
the dynamic walker excludes it (it ends in `.d.ts`), so the two walkers do
not enumerate the same sequence.  (A file named `x.tsx` separates them in
the other direction.) -/
theorem c8_counterexample :
    ExtractSounds.findAllTsFiles "root".data [FsNode.file "a.d.ts".data] ≠
      DynExtract.findAllTsFiles "root".data [FsNode.file "a.d.ts".data] := by
  simp only [ExtractSounds.findAllTsFiles, DynExtract.findAllTsFiles]
  decide

/-- C8 (amended): the two walkers share the same depth-first recursive
traversal and differ only in their suffix filters (`.ts` or `.tsx` versus
`.ts` but not `.d.ts`); on every directory tree containing no file whose
name ends in `.tsx` or `.d.ts` they enumerate the same ordered sequence of
candidate file paths. -/
theorem c8_walkers_agree : ∀ (d : List Char) (l : List FsNode),
    noVariantGap l = true →
    ExtractSounds.findAllTsFiles d l = DynExtract.findAllTsFiles d l := by
  intro d l
  induction d, l using ExtractSounds.findAllTsFiles.induct with
  | case1 d =>
    intro _
    simp only [ExtractSounds.findAllTsFiles, DynExtract.findAllTsFiles]
  | case2 d n rest ih =>
    intro h
    simp only [noVariantGap, Bool.and_eq_true, Bool.not_eq_true'] at h
    obtain ⟨⟨htsx, hdts⟩, hrest⟩ := h
    simp only [ExtractSounds.findAllTsFiles, DynExtract.findAllTsFiles,
      htsx, hdts, Bool.or_false, Bool.not_false, Bool.and_true]
    rw [ih hrest]
  | case3 d n entries rest ih1 ih2 =>
    intro h
    simp only [noVariantGap, Bool.and_eq_true] at h
    obtain ⟨hes, hrest⟩ := h
    simp only [ExtractSounds.findAllTsFiles, DynExtract.findAllTsFiles]
    rw [ih1 hes, ih2 hrest]

/-- C8 witness: the amended theorem applied to a two-level tree of plain
`.ts` files. -/
theorem c8_walkers_agree_witness :
    ExtractSounds.findAllTsFiles "root".data
        [FsNode.dir "sub".data [FsNode.file "b.ts".data], FsNode.file "c.ts".data] =
      DynExtract.findAllTsFiles "root".data
        [FsNode.dir "sub".data [FsNode.file "b.ts".data], FsNode.file "c.ts".data] :=
  c8_walkers_agree "root".data
    [FsNode.dir "sub".data [FsNode.file "b.ts".data], FsNode.file "c.ts".data]
    (by simp only [noVariantGap]; decide)
